import Mathlib

/-!
Shallow embedding of the ConwayBets prediction-market ledger
(`src/linera/src/state.rs`, `src/linera/src/contract.rs`,
`src/linera/src/service.rs`) together with proofs of the stated
properties of the ledger operations and query surface.

Modelling conventions:
* `ChainId` and `AccountOwner` are opaque SDK identifiers with a total
  order; they are modelled as `Nat`.
* `Amount` is a `u128` wrapper in the SDK; the ledger only stores it and
  converts `0` into it, so it is modelled as `Nat`.
* `BTreeMap` is modelled as an association list kept sorted by key
  (`alistInsert` inserts at the ordered position, replacing an existing
  binding), so that `values()` iteration order matches the source.
* `bcs` serialization is external; what the embedding keeps of it is
  which fields of `ConwayBets` reach the byte blob: `next_market_id` and
  `next_bet_id` are `#[serde(skip)]`, so the blob (`StateBlob`) holds
  exactly the two maps, and deserialization restores the skipped
  counters from `Default`, i.e. to `0`.
-/

/-- Models `linera_base_types::ChainId`, an opaque ordered identifier. -/
abbrev ChainId := Nat

/-- Models `linera_base_types::AccountOwner`, an opaque ordered identifier. -/
abbrev AccountOwner := Nat

/-- Models `linera_base_types::Amount` (a `u128` wrapper; the ledger only
ever stores values of it and builds it via `Amount::from(0)`). -/
abbrev Amount := Nat

/-- `MarketId` from `state.rs`: composite of originating chain and an
integer suffix. -/
structure MarketId where
  chain_id : ChainId
  id : Nat
deriving DecidableEq, Repr

/-- The strict order on `MarketId` derived by `#[derive(PartialOrd, Ord)]`
in `state.rs`: lexicographic on `(chain_id, id)` in field order. -/
def MarketId.ltb (a b : MarketId) : Bool :=
  a.chain_id < b.chain_id || (a.chain_id == b.chain_id && a.id < b.id)

/-- `Status` from `state.rs`. -/
inductive Status where
  | Finalized
  | Pending
deriving DecidableEq, Repr

/-- `Receipt` from `state.rs`. -/
structure Receipt where
  id : Nat
  status : Status
deriving DecidableEq, Repr

/-- `Receipt::new` from `state.rs`. -/
def Receipt.new (id : Nat) (status : Status) : Receipt := ⟨id, status⟩

/-- `Market` from `state.rs`.  `state_hash` is a `[u8; 32]`, modelled as a
list of byte values. -/
structure Market where
  id : MarketId
  creator : AccountOwner
  title : String
  description : String
  end_time : Nat
  outcomes : List String
  total_liquidity : Amount
  is_resolved : Bool
  winning_outcome : Option Nat
  state_hash : List Nat
deriving DecidableEq, Repr

/-- `UserPosition` from `state.rs`. -/
structure UserPosition where
  market_id : MarketId
  outcome_index : Nat
  amount : Amount
  state_hash : List Nat
deriving DecidableEq, Repr

/-- Lookup in an association list; models `BTreeMap::get`. -/
def alistGet? {α β : Type} [DecidableEq α] (k : α) : List (α × β) → Option β
  | [] => none
  | (k', v) :: rest => if k = k' then some v else alistGet? k rest

/-- Ordered insert-or-replace in a sorted association list; models
`BTreeMap::insert` (including the iteration order it induces). -/
def alistInsert {α β : Type} [DecidableEq α] (lt : α → α → Bool) (k : α) (v : β) :
    List (α × β) → List (α × β)
  | [] => [(k, v)]
  | (k', v') :: rest =>
    if lt k k' then (k, v) :: (k', v') :: rest
    else if k = k' then (k, v) :: rest
    else (k', v') :: alistInsert lt k v rest

/-- Models `BTreeMap::values()` iteration. -/
def alistValues {α β : Type} (l : List (α × β)) : List β := l.map Prod.snd

/-- The strict order on `AccountOwner` used by its `BTreeMap`. -/
def ownerLtb (a b : AccountOwner) : Bool := a < b

/-- `ConwayBets` from `state.rs`: the ledger state.  The two counters carry
`#[serde(skip)]`. -/
structure ConwayBets where
  markets : List (MarketId × Market)
  user_positions : List (AccountOwner × List UserPosition)
  next_market_id : Nat
  next_bet_id : Nat
deriving DecidableEq, Repr

/-- `ConwayBets::default()` (`#[derive(Default)]`): empty maps, zero
counters. -/
def ConwayBets.default : ConwayBets := ⟨[], [], 0, 0⟩

/-- `ConwayBets::context()` from `state.rs` returns a stub context whose
chain id is the constant `ChainId([0; 4])`; modelled as the constant `0`. -/
def contextChainId : ChainId := 0

/-- `ConwayBets::initialize_market_state` from `state.rs`: stubbed to the
all-zero 32-byte digest. -/
def initialize_market_state (_market_id : MarketId) : List Nat :=
  List.replicate 32 0

/-- `ConwayBets::lock_funds` from `state.rs`: a stub that always returns
`Ok(())`. -/
def ConwayBets.lock_funds (_s : ConwayBets) (_user : AccountOwner)
    (_amount : Amount) : Except String Unit := .ok ()

/-- `ConwayBets::create_market` from `state.rs`: increments
`next_market_id`, builds the `MarketId` from the context chain id and the
incremented counter, inserts the fresh `Market` (zero liquidity,
unresolved, no winner, stubbed digest) and sends the (no-op) `Initialize`
message. -/
def ConwayBets.create_market (s : ConwayBets) (creator : AccountOwner)
    (title description : String) (end_time : Nat) (outcomes : List String) :
    ConwayBets :=
  let next := s.next_market_id + 1
  let market_id : MarketId := ⟨contextChainId, next⟩
  let state_hash := initialize_market_state market_id
  let market : Market :=
    { id := market_id, creator, title, description, end_time, outcomes
      total_liquidity := 0, is_resolved := false, winning_outcome := none
      state_hash }
  { s with
    next_market_id := next
    markets := alistInsert MarketId.ltb market_id market s.markets }

/-- `ConwayBets::place_bet` from `state.rs`.  Returns the state after the
call together with the `Result`; an early `?` return leaves the state as it
was at that point (no mutation precedes the lookup or the fund lock). -/
def ConwayBets.place_bet (s : ConwayBets) (market_id : MarketId)
    (user : AccountOwner) (outcome_index : Nat) (amount : Amount) :
    ConwayBets × Except String Receipt :=
  match alistGet? market_id s.markets with
  | none => (s, .error "MarketNotFound")
  | some m =>
    match s.lock_funds user amount with
    | .error e => (s, .error e)
    | .ok _ =>
      let position : UserPosition :=
        { market_id, outcome_index, amount, state_hash := m.state_hash }
      let positions := ((alistGet? user s.user_positions).getD []) ++ [position]
      let s' : ConwayBets :=
        { s with
          user_positions := alistInsert ownerLtb user positions s.user_positions
          next_bet_id := s.next_bet_id + 1 }
      (s', .ok (Receipt.new s'.next_bet_id Status.Finalized))

/-- The per-user position list, as `get_user_bets(U)` would read it:
the `BTreeMap` entry for the user, or the empty list. -/
def userPositionsOf (u : AccountOwner) (s : ConwayBets) : List UserPosition :=
  (alistGet? u s.user_positions).getD []

/-!  Persistence layer (`contract.rs` / `service.rs`).

`bcs::to_bytes(&state)` encodes exactly the fields of `ConwayBets` that
serde serializes; `next_market_id` and `next_bet_id` are `#[serde(skip)]`
(state.rs:72-75), so the byte blob is the encoding of the two maps alone.
`StateBlob` is that encoded content; malformed bytes are represented by a
failed parse, i.e. by `Option.none` at the points where the source calls
`bcs::from_bytes`. -/

/-- The content of the byte blob stored under `STATE_KEY`: exactly the
serde-visible fields of `ConwayBets`. -/
structure StateBlob where
  markets : List (MarketId × Market)
  user_positions : List (AccountOwner × List UserPosition)
deriving DecidableEq, Repr

/-- Models `bcs::to_bytes(&self.state)` in `ConwayBetsContract::store`:
the skipped counters are not encoded. -/
def ConwayBets.store (s : ConwayBets) : StateBlob :=
  ⟨s.markets, s.user_positions⟩

/-- Models a successful `bcs::from_bytes::<ConwayBets>`: the serialized
fields are restored and the `#[serde(skip)]` counters take their
`Default` value `0`. -/
def StateBlob.decode (b : StateBlob) : ConwayBets :=
  ⟨b.markets, b.user_positions, 0, 0⟩

/-- Outcome of the contract-side `load`: either a loaded state or a panic
(an `expect` failure aborts the call). -/
inductive ContractLoadResult where
  | ok (s : ConwayBets)
  | panic (msg : String)
deriving DecidableEq, Repr

/-- Models `ConwayBetsContract::load` (contract.rs:38-51).  The argument
is the stored blob as read from `STATE_KEY`: `none` when no value is
stored, `some none` when a value is stored but `bcs::from_bytes` fails on
it, `some (some b)` when it parses as `b`.  A parse failure hits
`.expect("Failed to deserialize state")`, which panics. -/
def contractLoad : Option (Option StateBlob) → ContractLoadResult
  | none => .ok ConwayBets.default
  | some none => .panic "Failed to deserialize state"
  | some (some b) => .ok b.decode

/-- Models `ConwayBetsService::new` (service.rs:26-35).  Same argument
convention as `contractLoad`.  A parse failure hits
`.unwrap_or_default()`, so the service substitutes the default empty
ledger and never aborts. -/
def serviceNew : Option (Option StateBlob) → ConwayBets
  | none => ConwayBets.default
  | some none => ConwayBets.default
  | some (some b) => b.decode

/-!  Query surface (`service.rs`). -/

/-- Decimal digit character: models the digits produced by Rust's integer
`Display`. -/
def digitChar (n : Nat) : Char := Char.ofNat (48 + n)

/-- Fuel-driven core of the decimal rendering; `fuel > n` always
suffices, and the fuel only serves to make the recursion structural. -/
def natDigitsAux : Nat → Nat → List Char
  | 0, _ => []
  | fuel + 1, n =>
    if n < 10 then [digitChar n]
    else natDigitsAux fuel (n / 10) ++ [digitChar (n % 10)]

/-- Decimal digit list of a natural number, most significant first;
models Rust's `u64::to_string` (standard decimal, no sign, no leading
zeros). -/
def natDigits (n : Nat) : List Char := natDigitsAux (n + 1) n

/-- Models `u64::to_string`. -/
def u64ToString (n : Nat) : String := ⟨natDigits n⟩

/-- Models the external SDK's `Display` for `AccountOwner`; the claims
never inspect its output beyond carrying it around. -/
def accountOwnerToString (a : AccountOwner) : String := u64ToString a

/-- Models the external SDK's `Display` for `Amount`; the claims only use
that zero renders as the fixed string `amountToString 0`. -/
def amountToString (a : Amount) : String := u64ToString a

/-- One lowercase hex digit. -/
def hexDigit (n : Nat) : Char :=
  if n < 10 then Char.ofNat (48 + n) else Char.ofNat (87 + n)

/-- Models `format!("{:02x}", b)` for a byte value. -/
def byteToHex (b : Nat) : String := ⟨[hexDigit (b / 16 % 16), hexDigit (b % 16)]⟩

/-- `MarketGql` from `service.rs`: the display-friendly projection of a
`Market`. -/
structure MarketGql where
  id : String
  title : String
  description : String
  creator : String
  end_time : Nat
  outcomes : List String
  total_liquidity : String
  is_resolved : Bool
  winning_outcome : Option Nat
  state_hash : String
  created_at : Nat
deriving DecidableEq, Repr

/-- `impl From<&Market> for MarketGql` from `service.rs`: the id exposes
just the integer part, the hash is rendered as lowercase hex, and
`created_at` is the placeholder `0`. -/
def marketGqlOfMarket (m : Market) : MarketGql :=
  { id := u64ToString m.id.id
    title := m.title
    description := m.description
    creator := accountOwnerToString m.creator
    end_time := m.end_time
    outcomes := m.outcomes
    total_liquidity := amountToString m.total_liquidity
    is_resolved := m.is_resolved
    winning_outcome := m.winning_outcome
    state_hash := String.join (m.state_hash.map byteToHex)
    created_at := 0 }

/-- `QueryRoot::markets` from `service.rs`: default limit `50`, default
offset `0`, then `values().skip(offset).take(limit)` mapped through the
projection. -/
def marketsQuery (s : ConwayBets) (limit offset : Option Nat) : List MarketGql :=
  let limit := limit.getD 50
  let offset := offset.getD 0
  (((alistValues s.markets).drop offset).take limit).map marketGqlOfMarket

/-- `QueryRoot::market` from `service.rs`: finds the first market (in
`values()` order) whose integer id renders to the query string. -/
def marketQuery (s : ConwayBets) (id : String) : Option MarketGql :=
  ((alistValues s.markets).find? (fun m => u64ToString m.id.id == id)).map
    marketGqlOfMarket

/-!  Session runs, for the multi-call claims. -/

/-- The arguments of one `CreateMarket` operation. -/
structure CreateReq where
  creator : AccountOwner
  title : String
  description : String
  end_time : Nat
  outcomes : List String

/-- Apply one `CreateMarket` operation. -/
def applyCreate (s : ConwayBets) (r : CreateReq) : ConwayBets :=
  s.create_market r.creator r.title r.description r.end_time r.outcomes

/-- Run a sequence of `create_market` calls in one session (one loaded
`ConwayBets` value, no reload). -/
def runCreates (s : ConwayBets) : List CreateReq → ConwayBets
  | [] => s
  | r :: rs => runCreates (applyCreate s r) rs

/-- The `MarketId` that `create_market` assigns when called on state `s`. -/
def createdId (s : ConwayBets) : MarketId :=
  ⟨contextChainId, s.next_market_id + 1⟩

/-- The `MarketId`s assigned, in order, by a sequence of `create_market`
calls starting from `s`. -/
def assignedIds (s : ConwayBets) : List CreateReq → List MarketId
  | [] => []
  | r :: rs => createdId s :: assignedIds (applyCreate s r) rs

/-!  Concrete states used by witnesses and counterexamples. -/

/-- The market record produced by
`create_market(creator=7, title="T", description="D", end_time=1000,
outcomes=["Yes","No"])` on the empty ledger. -/
def sampleMarket : Market :=
  { id := ⟨contextChainId, 1⟩, creator := 7, title := "T", description := "D"
    end_time := 1000, outcomes := ["Yes", "No"], total_liquidity := 0
    is_resolved := false, winning_outcome := none
    state_hash := List.replicate 32 0 }

/-- The ledger after that single `create_market` call. -/
def sampleState : ConwayBets :=
  ConwayBets.default.create_market 7 "T" "D" 1000 ["Yes", "No"]

/-- A market that is already resolved, past its deadline, with a single
outcome — for exercising the absent validation paths of `place_bet`. -/
def resolvedMarket : Market :=
  { id := ⟨contextChainId, 1⟩, creator := 3, title := "R", description := ""
    end_time := 0, outcomes := ["Yes"], total_liquidity := 5
    is_resolved := true, winning_outcome := some 0
    state_hash := List.replicate 32 0 }

/-- A ledger holding only `resolvedMarket`. -/
def resolvedState : ConwayBets :=
  ⟨[(⟨contextChainId, 1⟩, resolvedMarket)], [], 1, 0⟩

/-!  Helper lemmas. -/

theorem alistGet?_insert_self {α β : Type} [DecidableEq α]
    (lt : α → α → Bool) (k : α) (v : β) (l : List (α × β)) :
    alistGet? k (alistInsert lt k v l) = some v := by
  induction l with
  | nil => simp [alistInsert, alistGet?]
  | cons kv rest ih =>
    obtain ⟨k', v'⟩ := kv
    by_cases hlt : lt k k' = true
    · simp [alistInsert, hlt, alistGet?]
    · by_cases heq : k = k'
      · subst heq
        simp [alistInsert, hlt, alistGet?]
      · simp [alistInsert, hlt, heq, alistGet?, ih]

theorem find?_eq_head?_filter {α : Type} (p : α → Bool) (l : List α) :
    l.find? p = (l.filter p).head? := by
  induction l with
  | nil => rfl
  | cons x xs ih =>
    by_cases hx : p x = true
    · rw [List.find?_cons_of_pos _ hx, List.filter_cons_of_pos hx, List.head?_cons]
    · rw [List.find?_cons_of_neg _ hx, List.filter_cons_of_neg hx, ih]

theorem place_bet_markets (s : ConwayBets) (mid : MarketId)
    (u : AccountOwner) (oi : Nat) (amt : Amount) :
    ((s.place_bet mid u oi amt).1).markets = s.markets := by
  rcases h : alistGet? mid s.markets with _ | m <;>
    simp [ConwayBets.place_bet, h, ConwayBets.lock_funds]

theorem place_bet_found (s : ConwayBets) (mid : MarketId) (u : AccountOwner)
    (oi : Nat) (amt : Amount) (m : Market)
    (h : alistGet? mid s.markets = some m) :
    s.place_bet mid u oi amt =
      ({ s with
          user_positions :=
            alistInsert ownerLtb u
              (userPositionsOf u s ++ [⟨mid, oi, amt, m.state_hash⟩])
              s.user_positions
          next_bet_id := s.next_bet_id + 1 },
        .ok (Receipt.new (s.next_bet_id + 1) Status.Finalized)) := by
  simp [ConwayBets.place_bet, h, ConwayBets.lock_funds, userPositionsOf]

theorem runCreates_next (reqs : List CreateReq) :
    ∀ s : ConwayBets,
      (runCreates s reqs).next_market_id = s.next_market_id + reqs.length := by
  induction reqs with
  | nil => intro s; simp [runCreates]
  | cons r rs ih =>
    intro s
    simp [runCreates, ih, applyCreate, ConwayBets.create_market]
    omega

theorem assignedIds_id_lt (reqs : List CreateReq) :
    ∀ s : ConwayBets, ∀ mid ∈ assignedIds s reqs,
      s.next_market_id < mid.id := by
  induction reqs with
  | nil => intro s mid hm; simp [assignedIds] at hm
  | cons r rs ih =>
    intro s mid hm
    simp only [assignedIds, List.mem_cons] at hm
    rcases hm with rfl | hm
    · simp [createdId]
    · have := ih (applyCreate s r) mid hm
      simp [applyCreate, ConwayBets.create_market] at this
      omega

theorem assignedIds_pairwise (reqs : List CreateReq) :
    ∀ s : ConwayBets,
      (assignedIds s reqs).Pairwise (fun a b => a.id < b.id) := by
  induction reqs with
  | nil => intro s; simp [assignedIds]
  | cons r rs ih =>
    intro s
    simp only [assignedIds, List.pairwise_cons]
    refine ⟨fun mid hm => ?_, ih (applyCreate s r)⟩
    have := assignedIds_id_lt rs (applyCreate s r) mid hm
    simp only [applyCreate, ConwayBets.create_market] at this
    simp only [createdId]
    omega

theorem natDigitsAux_fuel : ∀ n fuel : Nat, n < fuel →
    natDigitsAux fuel n = natDigitsAux (n + 1) n := by
  intro n
  induction n using Nat.strong_induction_on with
  | _ n ih =>
    intro fuel hf
    match fuel, hf with
    | f + 1, hf =>
      simp only [natDigitsAux]
      by_cases h10 : n < 10
      · simp [h10]
      · simp only [h10, if_false]
        have hlt : n / 10 < n := Nat.div_lt_self (by omega) (by omega)
        rw [ih (n / 10) hlt f (by omega), ih (n / 10) hlt n (by omega)]

theorem natDigits_eq (n : Nat) :
    natDigits n = if n < 10 then [digitChar n]
      else natDigits (n / 10) ++ [digitChar (n % 10)] := by
  show natDigitsAux (n + 1) n = _
  simp only [natDigitsAux]
  by_cases h10 : n < 10
  · simp [h10]
  · simp only [h10, if_false]
    have hlt : n / 10 < n := Nat.div_lt_self (by omega) (by omega)
    rw [natDigitsAux_fuel (n / 10) n (by omega)]
    rfl

theorem natDigits_ne_nil (n : Nat) : natDigits n ≠ [] := by
  rw [natDigits_eq]
  split <;> simp

theorem digitChar_ne_zero {n : Nat} (h1 : n < 10) (h2 : n ≠ 0) :
    digitChar n ≠ '0' := by
  interval_cases n
  · exact absurd rfl h2
  all_goals decide

theorem digitChar_isDigit {n : Nat} (h : n < 10) :
    (digitChar n).isDigit = true := by
  interval_cases n <;> decide

theorem natDigits_head?_ne_zero (n : Nat) (h : n ≠ 0) :
    (natDigits n).head? ≠ some '0' := by
  induction n using Nat.strong_induction_on with
  | _ n ih =>
    rw [natDigits_eq]
    split
    · next h10 =>
      simpa using digitChar_ne_zero h10 h
    · next h10 =>
      obtain ⟨a, as, ha⟩ := List.exists_cons_of_ne_nil (natDigits_ne_nil (n / 10))
      rw [ha, List.cons_append, List.head?_cons]
      have hd : n / 10 ≠ 0 := by omega
      have hlt : n / 10 < n := Nat.div_lt_self (by omega) (by omega)
      have := ih (n / 10) hlt hd
      rw [ha, List.head?_cons] at this
      exact this

theorem natDigits_isDigit (n : Nat) : ∀ c ∈ natDigits n, c.isDigit = true := by
  induction n using Nat.strong_induction_on with
  | _ n ih =>
    intro c hc
    rw [natDigits_eq] at hc
    split at hc
    · next h10 =>
      rw [List.mem_singleton] at hc
      exact hc ▸ digitChar_isDigit h10
    · next h10 =>
      rw [List.mem_append] at hc
      rcases hc with hc | hc
      · exact ih (n / 10) (Nat.div_lt_self (by omega) (by omega)) c hc
      · rw [List.mem_singleton] at hc
        exact hc ▸ digitChar_isDigit (Nat.mod_lt _ (by omega))

theorem u64ToString_zero : u64ToString 0 = "0" := by decide

theorem u64ToString_data (n : Nat) : (u64ToString n).data = natDigits n := rfl

theorem u64ToString_head?_ne_zero (n : Nat) (h : n ≠ 0) :
    (u64ToString n).data.head? ≠ some '0' :=
  natDigits_head?_ne_zero n h

/-!  Claim theorems. -/

/-- C1: for every ledger state and every `MarketId` not present in the
markets map, `place_bet` fails with the NotFound error and returns the
ledger state entirely unchanged — no `UserPosition` appended, no market
modified, `next_bet_id` not advanced. -/
theorem c1_place_bet_notfound_unchanged (s : ConwayBets) (mid : MarketId)
    (u : AccountOwner) (oi : Nat) (amt : Amount)
    (h : alistGet? mid s.markets = none) :
    s.place_bet mid u oi amt = (s, Except.error "MarketNotFound") := by
  simp [ConwayBets.place_bet, h]

theorem c1_witness :
    alistGet? (⟨3, 9⟩ : MarketId) ConwayBets.default.markets = none ∧
      ConwayBets.default.place_bet ⟨3, 9⟩ 2 0 5 =
        (ConwayBets.default, Except.error "MarketNotFound") :=
  ⟨rfl, c1_place_bet_notfound_unchanged ConwayBets.default ⟨3, 9⟩ 2 0 5 rfl⟩

/-- C2: within one session (one loaded `ConwayBets` value), the
`MarketId`s assigned by any sequence of `create_market` calls are strictly
increasing in their integer component — hence pairwise distinct — and the
`next_market_id` counter advances by exactly one per call, never reused. -/
theorem c2_created_ids_distinct (s : ConwayBets) (reqs : List CreateReq) :
    (assignedIds s reqs).Pairwise (fun a b => a.id < b.id) ∧
      (assignedIds s reqs).Nodup ∧
      (runCreates s reqs).next_market_id = s.next_market_id + reqs.length := by
  refine ⟨assignedIds_pairwise reqs s, ?_, runCreates_next reqs s⟩
  refine (assignedIds_pairwise reqs s).imp ?_
  intro a b hab heq
  rw [heq] at hab
  exact Nat.lt_irrefl _ hab

/-- C3 counterexample: a successful `place_bet` of amount 100 on the
freshly created market leaves the markets map — in particular the
market's `total_liquidity`, still `0` — entirely unchanged, refuting the
claim that `place_bet` mutates the referenced `Market`'s accumulated
liquidity. -/
theorem c3_counterexample :
    ((sampleState.place_bet ⟨contextChainId, 1⟩ 9 0 100).2 =
        Except.ok (Receipt.new 1 Status.Finalized)) ∧
      ((sampleState.place_bet ⟨contextChainId, 1⟩ 9 0 100).1).markets =
        sampleState.markets ∧
      (alistGet? ⟨contextChainId, 1⟩
          ((sampleState.place_bet ⟨contextChainId, 1⟩ 9 0 100).1).markets).map
        Market.total_liquidity = some 0 :=
  ⟨rfl, rfl, rfl⟩

/-- C3 amended: `place_bet` never mutates any `Market` record — the
markets map, including every `total_liquidity`, is left unchanged by every
`place_bet` call (liquidity application is deferred to the unimplemented
cross-chain `Bet` message handler). -/
theorem c3_amended_place_bet_markets_unchanged (s : ConwayBets)
    (mid : MarketId) (u : AccountOwner) (oi : Nat) (amt : Amount) :
    ((s.place_bet mid u oi amt).1).markets = s.markets :=
  place_bet_markets s mid u oi amt

/-- C4: serializing a ledger state (`store`) and deserializing the
produced blob (`load`) yields a state with the same markets map and the
same user-positions map, while both `#[serde(skip)]` counters come back
as zero regardless of their values before the round trip. -/
theorem c4_store_load_roundtrip (s : ConwayBets) :
    contractLoad (some (some s.store)) =
      ContractLoadResult.ok
        { markets := s.markets, user_positions := s.user_positions
          next_market_id := 0, next_bet_id := 0 } := rfl

/-- C5: for every market present in the map and all values of user,
outcome index and amount — out-of-range outcome index, past deadline,
resolved market and zero amount included, since nothing checks them —
`place_bet` succeeds, appends the `UserPosition` to the caller's list and
returns `Ok` of a `Receipt` with status `Finalized` whose id is the
incremented bet counter. -/
theorem c5_place_bet_always_succeeds (s : ConwayBets) (mid : MarketId)
    (u : AccountOwner) (oi : Nat) (amt : Amount) (m : Market)
    (h : alistGet? mid s.markets = some m) :
    (s.place_bet mid u oi amt).2 =
        Except.ok (Receipt.new (s.next_bet_id + 1) Status.Finalized) ∧
      userPositionsOf u ((s.place_bet mid u oi amt).1) =
        userPositionsOf u s ++ [⟨mid, oi, amt, m.state_hash⟩] ∧
      ((s.place_bet mid u oi amt).1).next_bet_id = s.next_bet_id + 1 := by
  rw [place_bet_found s mid u oi amt m h]
  refine ⟨rfl, ?_, rfl⟩
  simp [userPositionsOf, alistGet?_insert_self]

theorem c5_witness :
    alistGet? (⟨contextChainId, 1⟩ : MarketId) resolvedState.markets =
        some resolvedMarket ∧
      ((resolvedState.place_bet ⟨contextChainId, 1⟩ 4 99 0).2 =
          Except.ok (Receipt.new 1 Status.Finalized) ∧
        userPositionsOf 4 ((resolvedState.place_bet ⟨contextChainId, 1⟩ 4 99 0).1) =
          userPositionsOf 4 resolvedState ++
            [⟨⟨contextChainId, 1⟩, 99, 0, resolvedMarket.state_hash⟩] ∧
        ((resolvedState.place_bet ⟨contextChainId, 1⟩ 4 99 0).1).next_bet_id = 1) :=
  ⟨rfl, c5_place_bet_always_succeeds resolvedState ⟨contextChainId, 1⟩ 4 99 0
    resolvedMarket rfl⟩

/-- C6: starting from a state where user `U` has no positions and market
`M` exists, one `place_bet(M, U, 0, 100)` leaves `U` with exactly one
position referencing `M` with amount 100, and repeating the identical call
leaves exactly two such positions — appends are never deduplicated. -/
theorem c6_repeat_bet_appends (s : ConwayBets) (M : MarketId)
    (U : AccountOwner) (m : Market)
    (h1 : alistGet? M s.markets = some m)
    (h2 : userPositionsOf U s = []) :
    userPositionsOf U ((s.place_bet M U 0 100).1) =
        [⟨M, 0, 100, m.state_hash⟩] ∧
      userPositionsOf U ((((s.place_bet M U 0 100).1).place_bet M U 0 100).1) =
        [⟨M, 0, 100, m.state_hash⟩, ⟨M, 0, 100, m.state_hash⟩] := by
  have hm1 : alistGet? M ((s.place_bet M U 0 100).1).markets = some m := by
    rw [place_bet_markets]
    exact h1
  have hp1 : userPositionsOf U ((s.place_bet M U 0 100).1) =
      [⟨M, 0, 100, m.state_hash⟩] := by
    rw [place_bet_found s M U 0 100 m h1]
    simp only [userPositionsOf] at h2 ⊢
    simp [alistGet?_insert_self, h2]
  refine ⟨hp1, ?_⟩
  rw [place_bet_found _ M U 0 100 m hm1]
  simp only [userPositionsOf, alistGet?_insert_self, Option.getD_some]
  rw [show ((alistGet? U ((s.place_bet M U 0 100).1).user_positions).getD []) =
      userPositionsOf U ((s.place_bet M U 0 100).1) from rfl, hp1]
  rfl

theorem c6_witness :
    alistGet? (⟨contextChainId, 1⟩ : MarketId) sampleState.markets =
        some sampleMarket ∧
      userPositionsOf 2 sampleState = [] ∧
      (userPositionsOf 2 ((sampleState.place_bet ⟨contextChainId, 1⟩ 2 0 100).1) =
          [⟨⟨contextChainId, 1⟩, 0, 100, sampleMarket.state_hash⟩] ∧
        userPositionsOf 2
            ((((sampleState.place_bet ⟨contextChainId, 1⟩ 2 0 100).1).place_bet
              ⟨contextChainId, 1⟩ 2 0 100).1) =
          [⟨⟨contextChainId, 1⟩, 0, 100, sampleMarket.state_hash⟩,
            ⟨⟨contextChainId, 1⟩, 0, 100, sampleMarket.state_hash⟩]) :=
  ⟨rfl, rfl,
    c6_repeat_bet_appends sampleState ⟨contextChainId, 1⟩ 2 sampleMarket rfl rfl⟩

/-- C7: starting from the empty ledger, after a single `create_market`
call the `markets()` query returns exactly one projection, and that entry
renders `total_liquidity` as the rendering of zero, has `is_resolved`
false and `winning_outcome` `None`. -/
theorem c7_single_market_projection (creator : AccountOwner)
    (title description : String) (end_time : Nat) (outcomes : List String) :
    ∃ g : MarketGql,
      marketsQuery (ConwayBets.default.create_market creator title description
          end_time outcomes) none none = [g] ∧
        g.total_liquidity = amountToString 0 ∧
        g.is_resolved = false ∧
        g.winning_outcome = none :=
  ⟨_, rfl, rfl, rfl, rfl⟩

/-- C8: the `markets(limit, offset)` query defaults to `limit = 50`,
`offset = 0` when the arguments are absent, and over a state built by
three `create_market` calls, `markets(limit=1, offset=1)` returns exactly
the projection of the second market in creation order. -/
theorem c8_pagination (r1 r2 r3 : CreateReq) :
    (∀ s : ConwayBets,
        marketsQuery s none none = marketsQuery s (some 50) (some 0)) ∧
      marketsQuery (runCreates ConwayBets.default [r1, r2, r3])
          (some 1) (some 1) =
        [marketGqlOfMarket
          { id := ⟨contextChainId, 2⟩, creator := r2.creator, title := r2.title
            description := r2.description, end_time := r2.end_time
            outcomes := r2.outcomes, total_liquidity := 0, is_resolved := false
            winning_outcome := none, state_hash := List.replicate 32 0 }] :=
  ⟨fun _ => rfl, rfl⟩

/-- C9 counterexample: on a stored-but-malformed state blob the
service-side load does not abort the call: `bcs::from_bytes(..)` failing
hits `unwrap_or_default()`, so the service silently substitutes the
default empty ledger — refuting the claim that both load paths abort. -/
theorem c9_counterexample : serviceNew (some none) = ConwayBets.default := rfl

/-- C9 amended: on a stored-but-malformed state blob the contract-side
load aborts the call outright (the `expect` panics), while the
service-side load degrades by silently substituting the default empty
ledger. -/
theorem c9_amended_contract_aborts_service_defaults :
    contractLoad (some none) =
        ContractLoadResult.panic "Failed to deserialize state" ∧
      serviceNew (some none) = ConwayBets.default :=
  ⟨rfl, rfl⟩

/-- C10: the `market(id)` query compares the query string only against
the decimal rendering of each market's integer id suffix (the chain
component never enters the predicate), returning the projection of the
first market in `values()` iteration order — ascending `MarketId` order —
whose rendered integer id equals the string exactly, and `none` when no
rendering matches; consequently a query string with a leading zero (other
than `"0"` itself) or with any non-decimal character never matches. -/
theorem c10_market_query_characterisation (s : ConwayBets) (q : String) :
    marketQuery s q =
        (((alistValues s.markets).filter
          (fun m => u64ToString m.id.id == q)).head?).map marketGqlOfMarket ∧
      (q.data.head? = some '0' → q ≠ "0" → marketQuery s q = none) ∧
      ((∃ c ∈ q.data, c.isDigit = false) → marketQuery s q = none) := by
  refine ⟨by rw [marketQuery, find?_eq_head?_filter], ?_, ?_⟩
  · intro h0 hq
    rw [marketQuery]
    have hnone : (alistValues s.markets).find?
        (fun m => u64ToString m.id.id == q) = none := by
      rw [List.find?_eq_none]
      intro m _
      simp only [beq_iff_eq]
      intro hm
      by_cases hz : m.id.id = 0
      · apply hq
        rw [← hm, hz]
        exact u64ToString_zero
      · exact u64ToString_head?_ne_zero m.id.id hz (by rw [hm]; exact h0)
    rw [hnone]
    rfl
  · rintro ⟨c, hcmem, hcd⟩
    rw [marketQuery]
    have hnone : (alistValues s.markets).find?
        (fun m => u64ToString m.id.id == q) = none := by
      rw [List.find?_eq_none]
      intro m _
      simp only [beq_iff_eq]
      intro hm
      have hcm : c ∈ natDigits m.id.id := by
        rw [← u64ToString_data, hm]
        exact hcmem
      have := natDigits_isDigit m.id.id c hcm
      simp [this] at hcd
    rw [hnone]
    rfl

theorem c10_witness : marketQuery sampleState "01" = none :=
  (c10_market_query_characterisation sampleState "01").2.1 rfl (by decide)
